import Mathlib

/-!
Verification of the PIM item analysis ingestion engine.

This file gives a shallow embedding of the Python sources
(`src/pim_item_analysis/db.py`, `src/pim_item_analysis/loaders.py`,
`src/main.py`) and proves or refutes the frozen claims about them.

Strings are modelled as `List Char`; Python exceptions are modelled with an
explicit `Except PyError` result (or `Option` for helpers).  Machine dates
are plain naturals.  All definitions are computable so every concrete claim
can be settled by evaluation.
-/

deriving instance DecidableEq for Except

namespace PimItemAnalysis

/-- Errors raised by the modelled Python code.  `valueError` models
`ValueError`, `indexError` models `IndexError`, `unboundLocal` models
`UnboundLocalError` / `NameError`, `noSuchTable` models
`sqlite3.OperationalError: no such table`. -/
inductive PyError where
  | valueError (msg : String)
  | indexError
  | unboundLocal
  | noSuchTable (table : String)
  deriving DecidableEq, Repr

/-! ## Naming utility (db.py: normalize_name, file_prefix) -/

/-- Model of Python `str.lower` for one character (ASCII range; the inputs
produced by this code base are ASCII file names). -/
def pyToLower (c : Char) : Char := c.toLower

/-- Model of Python `str.lower` on a whole string. -/
def pyLowerStr (s : String) : String := ⟨s.data.map pyToLower⟩

/-- Characters kept by the replacement pattern `[^a-z0-9]+` of
`normalize_name`: lower-case latin letters (codes 97-122) and digits
(codes 48-57). -/
def isKept (c : Char) : Bool :=
  ((97 ≤ c.toNat && c.toNat ≤ 122) || (48 ≤ c.toNat && c.toNat ≤ 57))

/-- Model of `re.sub(r"[^a-z0-9]+", "_", name)`: each maximal run of
non-kept characters becomes a single underscore.  The boolean flag records
whether we are currently inside such a run. -/
def subRunsAux : Bool → List Char → List Char
  | _, [] => []
  | inRun, c :: rest =>
    if isKept c then c :: subRunsAux false rest
    else if inRun then subRunsAux true rest
    else '_' :: subRunsAux true rest

/-- Replace every maximal run of non `[a-z0-9]` characters by one `_`. -/
def subRuns (l : List Char) : List Char := subRunsAux false l

/-- Model of Python `str.strip("_")`: drop leading and trailing
underscores. -/
def stripUS (l : List Char) : List Char :=
  (l.dropWhile (· = '_')).rdropWhile (· = '_')

/-- db.py `normalize_name`: lower-case, collapse runs of non `[a-z0-9]`
characters to `_`, strip leading/trailing `_`. -/
def normalize_name (l : List Char) : List Char :=
  stripUS (subRuns (l.map pyToLower))

/-- Model of Python `str.split("_")` (split at every underscore; empty
segments are kept, the result is never the empty list). -/
def splitUS : List Char → List (List Char)
  | [] => [[]]
  | c :: t =>
    if c = '_' then [] :: splitUS t
    else
      match splitUS t with
      | h :: r => (c :: h) :: r
      | [] => [[c]]

/-- Index of the last `.` in the name, model of Python `str.rfind('.')`
(`none` when there is no dot). -/
def lastDotIdx (l : List Char) : Option Nat :=
  ((List.range l.length).filter (fun i => l.get? i = some '.')).getLast?

/-- Model of `pathlib.PurePath.stem`: the file name with its suffix
removed; the suffix starts at the last dot provided that dot is neither the
first nor the last character. -/
def pathStem (l : List Char) : List Char :=
  match lastDotIdx l with
  | some i => if 0 < i ∧ i < l.length - 1 then l.take i else l
  | none => l

/-- db.py `file_prefix`: split the normalized stem on `_`; fewer than two
segments is a `ValueError`; if the second segment starts with a digit the
category is segment 0 alone, otherwise segments 0 and 1 joined by `_`
(Python `"_".join(file_name_parts[:2])`).  A (dead in practice) empty
second segment would raise `IndexError` at `file_name_parts[1][0]`. -/
def file_prefix (name : List Char) : Except PyError (List Char) :=
  match splitUS (normalize_name (pathStem name)) with
  | p0 :: p1 :: _ =>
    match p1 with
    | [] => .error .indexError
    | c :: _ =>
      if c.isDigit then .ok p0
      else .ok (List.intercalate ['_'] [p0, p1])
  | _ => .error (.valueError "File name should contain at least one underscore")

/-! ## Snapshot-key extraction (db.py: get_export_date_from_file) -/

/-- Numeric value of a list of ASCII digits (most significant first). -/
def natOfDigits (l : List Char) : Nat :=
  l.foldl (fun a c => 10 * a + (c.toNat - 48)) 0

/-- A Python `datetime.datetime` value (microseconds are always zero in
this code base). -/
structure PyDateTime where
  year : Nat
  month : Nat
  day : Nat
  hour : Nat
  minute : Nat
  second : Nat
  deriving DecidableEq, Repr

/-- Gregorian leap-year rule, as used by Python `datetime`. -/
def isLeapYear (y : Nat) : Bool :=
  y % 4 = 0 && (y % 100 ≠ 0 || y % 400 = 0)

/-- Number of days in a month of a given year. -/
def daysInMonth (y m : Nat) : Nat :=
  if m = 2 then (if isLeapYear y then 29 else 28)
  else if m = 4 || m = 6 || m = 9 || m = 11 then 30
  else 31

/-- Model of the `datetime.datetime` constructor: `none` when any field is
out of range (Python raises `ValueError`). -/
def mkDatetime (y mo d h mi s : Nat) : Option PyDateTime :=
  if 1 ≤ y && y ≤ 9999 && 1 ≤ mo && mo ≤ 12 && 1 ≤ d && d ≤ daysInMonth y mo
      && h ≤ 23 && mi ≤ 59 && s ≤ 59 then
    some ⟨y, mo, d, h, mi, s⟩
  else
    none

/-- Model of `datetime.strptime(text, "%Y%m%d%H%M%S")` on a 14-character
input.  On an all-digit string of length 14 the directive fields are forced
to two digits each (a one-digit field match would leave unconverted data,
which `strptime` rejects), so fixed-position slicing is faithful. -/
def strptime14 (l : List Char) : Option PyDateTime :=
  if l.length = 14 && l.all Char.isDigit then
    mkDatetime (natOfDigits (l.take 4)) (natOfDigits ((l.drop 4).take 2))
      (natOfDigits ((l.drop 6).take 2)) (natOfDigits ((l.drop 8).take 2))
      (natOfDigits ((l.drop 10).take 2)) (natOfDigits ((l.drop 12).take 2))
  else
    none

/-- Model of `datetime.strptime(text, "%y%m%d%H%M%S")` on a 12-character
input.  `%y` maps 00-68 to 2000-2068 and 69-99 to 1969-1999. -/
def strptime12 (l : List Char) : Option PyDateTime :=
  if l.length = 12 && l.all Char.isDigit then
    let yy := natOfDigits (l.take 2)
    mkDatetime (if yy ≤ 68 then 2000 + yy else 1900 + yy)
      (natOfDigits ((l.drop 2).take 2)) (natOfDigits ((l.drop 4).take 2))
      (natOfDigits ((l.drop 6).take 2)) (natOfDigits ((l.drop 8).take 2))
      (natOfDigits ((l.drop 10).take 2))
  else
    none

/-- Length of the maximal run of digits at the head of the list. -/
def digitRunLen (l : List Char) : Nat := (l.takeWhile Char.isDigit).length

/-- Does `pat` occur as a contiguous subsequence of the list? -/
def containsSeq (pat : List Char) : List Char → Bool
  | [] => pat.isPrefixOf ([] : List Char)
  | c :: t => pat.isPrefixOf (c :: t) || containsSeq pat t

/-- Does `.csv` occur (as a substring) at or after position `p`?  Models
the trailing `.*\.csv` of the regex. -/
def csvFrom (l : List Char) (p : Nat) : Bool :=
  containsSeq ".csv".data (l.drop p)

/-- Does the regex `.*_(\d{12,14}).*\.csv` match with the capture starting
at position `i + 1`?  Position `i` must hold `_`, at least 12 digits must
follow, and after the greedy capture of `min run 14` digits the rest of the
name must still contain `.csv`.  (Backtracking to a shorter capture never
helps: the skipped characters are digits, while an occurrence of `.csv`
starts with a non-digit, so the side condition does not depend on the
capture length.) -/
def underscoreMatch (l : List Char) (i : Nat) : Bool :=
  l.get? i = some '_' &&
    (let run := digitRunLen (l.drop (i + 1))
     decide (12 ≤ run) && csvFrom l (i + 1 + min run 14))

/-- The text captured by `re.findall(r".*_(\d{12,14}).*\.csv", name)[-1]`:
the leading `.*` is greedy, so the match uses the rightmost underscore
with ≥ 12 digits and a later `.csv`, and the capture greedily takes up to
14 of those digits.  (The single match spans to the last `.csv`, so
`findall` yields at most one element.) -/
def findTimestampCapture (l : List Char) : Option (List Char) :=
  match ((List.range l.length).filter (underscoreMatch l)).getLast? with
  | some i => some ((l.drop (i + 1)).take (min (digitRunLen (l.drop (i + 1))) 14))
  | none => none

/-- db.py `get_export_date_from_file`: extract the timestamp text from the
file name, then parse 12 digits as `%y%m%d%H%M%S`, 14 digits as
`%Y%m%d%H%M%S`; any other captured length, no match at all, or an invalid
date is a `ValueError`. -/
def get_export_date_from_file (name : List Char) : Except PyError PyDateTime :=
  match findTimestampCapture name with
  | none => .error (.valueError "Cannot parse date from filename")
  | some td =>
    if td.length = 12 then
      match strptime12 td with
      | some dt => .ok dt
      | none => .error (.valueError "time data does not match format")
    else if td.length = 14 then
      match strptime14 td with
      | some dt => .ok dt
      | none => .error (.valueError "time data does not match format")
    else .error (.valueError "Cannot parse date from filename")

/-- Claim-side predicate (from the specification text): the name contains
a run of exactly 12 or exactly 14 consecutive digits immediately preceded
by `_` and eventually followed by `.csv`.  `digitRunLen` is the maximal
run, so the run length really is 12 or 14, not merely at least that. -/
def hasSpecTimestampRun (l : List Char) : Bool :=
  (List.range l.length).any (fun i =>
    l.get? i = some '_' &&
      (let run := digitRunLen (l.drop (i + 1))
       (run = 12 || run = 14) && csvFrom l (i + 1 + run)))

/-! ## Insert-or-ignore bulk insert (loaders.py / db.py: db_create_table
unique index + `INSERT OR IGNORE` + `cursor.executemany`) -/

/-- Projection of a row onto the unique-index columns (by position in the
insert column list).  `none` models a column index beyond the row, which
does not occur for well-formed inserts.  CSV and workbook cells are never
SQL NULL here, so index equality is plain value equality. -/
def projectKey {V : Type} (idxs : List Nat) (row : List V) : List (Option V) :=
  idxs.map (fun i => row.get? i)

/-- Does inserting `row` hit the unique index?  With no unique index
(`none`) an insert never conflicts (the surrogate autoincrement key is
always fresh). -/
def hasConflict {V : Type} [DecidableEq V] (idxs : Option (List Nat))
    (t : List (List V)) (row : List V) : Bool :=
  match idxs with
  | none => false
  | some ix => t.any (fun r => decide (projectKey ix r = projectKey ix row))

/-- One `INSERT OR IGNORE` of a single row: returns the new table contents
and the number of rows actually inserted (0 or 1). -/
def insertOrIgnoreRow {V : Type} [DecidableEq V] (idxs : Option (List Nat))
    (t : List (List V)) (row : List V) : List (List V) × Nat :=
  if hasConflict idxs t row then (t, 0) else (t ++ [row], 1)

/-- `cursor.executemany` of an `INSERT OR IGNORE` statement over a list of
parameter rows; `cursor.rowcount` afterwards is the total number of rows
actually inserted (ignored duplicates are not counted). -/
def executemanyInsertOrIgnore {V : Type} [DecidableEq V] (idxs : Option (List Nat))
    (t : List (List V)) : List (List V) → List (List V) × Nat
  | [] => (t, 0)
  | row :: rest =>
    let p := insertOrIgnoreRow idxs t row
    let q := executemanyInsertOrIgnore idxs p.1 rest
    (q.1, p.2 + q.2)

/-- Python truthiness of the optional label argument: labels attach only
when the label is present and non-empty. -/
def labelTruthy (label : Option String) : Bool :=
  match label with
  | none => false
  | some s => s ≠ ""

/-- loaders.py `load_pimfile_to_db`, restricted to its datab e effect:
every CSV data row is prefixed with the export date taken from the file
name, bulk-inserted with insert-or-ignore on the unique-index columns;
returns the new table, the inserted-row count, and whether the label was
attached (`if label and inserted_row_count > 0`). -/
def load_pimfile_to_db {V : Type} [DecidableEq V] (table : List (List V))
    (idxs : Option (List Nat)) (export_date : V) (csvRows : List (List V))
    (label : Option String) : List (List V) × Nat × Bool :=
  let r := executemanyInsertOrIgnore idxs table (csvRows.map (fun row => export_date :: row))
  (r.1, r.2, labelTruthy label && decide (0 < r.2))

/-! ## Templated-document workbook loader (loaders.py: load_docfile_into_db) -/

/-- A spreadsheet cell as seen through `openpyxl` with `values_only=True`.
`dtime`/`date` carry an abstract day number (plus seconds within the day
for `dtime`); numbers are modelled as integers. -/
inductive Cell where
  | null
  | text (s : String)
  | num (z : Int)
  | dtime (day : Nat) (secs : Nat)
  | date (day : Nat)
  deriving DecidableEq, Repr

/-- Model of Python `str.strip()` on a string: drop whitespace from both
ends. -/
def pyStrip (s : String) : String :=
  ⟨(s.data.dropWhile Char.isWhitespace).rdropWhile Char.isWhitespace⟩

/-- Per-cell conversion in the data loop: strings are stripped, datetimes
are reduced to dates, everything else is unchanged. -/
def convertCell : Cell → Cell
  | .text s => .text (pyStrip s)
  | .dtime day _ => .date day
  | c => c

/-- Python truthiness of a converted cell (`any(data_row)`): `None`, the
empty string and the number 0 are falsy; dates are always truthy. -/
def truthy : Cell → Bool
  | .null => false
  | .text s => s ≠ ""
  | .num z => z ≠ 0
  | .dtime _ _ => true
  | .date _ => true

/-- The data row appended for one truthy sheet row:
`[request_date] + data_row + [file_path.name]`. -/
def wrapDataRow (reqDate fileName : Cell) (r : List Cell) : List Cell :=
  reqDate :: r ++ [fileName]

/-- The row loop of `load_docfile_into_db` over one sheet.  `i` is the
1-based row index, `empties` the count of empty data rows seen so far
(never reset), `sawHeader` records whether row `startHeader` was reached
(where the code builds the `INSERT` statement).  Rows at or after
`startData` are truncated to `cfgLen` columns, converted, and collected
when any converted value is truthy; otherwise `empties` grows, and the
loop breaks as soon as `empties ≥ 3`. -/
def scanLoop (cfgLen startHeader startData : Nat) (reqDate fileName : Cell) :
    Nat → Nat → Bool → List (List Cell) → List (List Cell) →
    List (List Cell) × Bool
  | _, _, sawHeader, acc, [] => (acc.reverse, sawHeader)
  | i, empties, sawHeader, acc, r :: rest =>
    let tr := (r.take cfgLen).map convertCell
    let sawHeader' := sawHeader || i = startHeader
    if startData ≤ i then
      if tr.any truthy then
        let acc' := wrapDataRow reqDate fileName tr :: acc
        if 3 ≤ empties then (acc'.reverse, sawHeader')
        else scanLoop cfgLen startHeader startData reqDate fileName
          (i + 1) empties sawHeader' acc' rest
      else if 3 ≤ empties + 1 then (acc.reverse, sawHeader')
      else scanLoop cfgLen startHeader startData reqDate fileName
        (i + 1) (empties + 1) sawHeader' acc rest
    else if 3 ≤ empties then (acc.reverse, sawHeader')
    else scanLoop cfgLen startHeader startData reqDate fileName
      (i + 1) empties sawHeader' acc rest

/-- Scan one worksheet: returns the collected (wrapped) data rows and
whether the header row was reached before the scan stopped. -/
def scanSheetFull (cfgLen startHeader startData : Nat) (reqDate fileName : Cell)
    (rows : List (List Cell)) : List (List Cell) × Bool :=
  scanLoop cfgLen startHeader startData reqDate fileName 1 0 false [] rows

/-- One worksheet of a workbook: its title and its rows. -/
structure Sheet where
  title : String
  rows : List (List Cell)

/-- The slice of the external TOML configuration consumed by
`load_docfile_into_db`, per lower-cased sheet title:
`config["doc"]["file_sheets"][prefix]`, `len(sheet_headers[t])`, and
`start_rows[t]["header"]` / `start_rows[t]["data"]`. -/
structure DocConfig where
  fileSheets : String → List String
  headerLen : String → Nat
  startHeader : String → Nat
  startData : String → Nat

/-- A mutable database: association list from table name to rows. -/
abbrev DocDB := List (String × List (List Cell))

/-- Current contents of a table (a table that does not exist yet reads as
empty, matching `CREATE TABLE IF NOT EXISTS` before the insert). -/
def getTable (db : DocDB) (name : String) : List (List Cell) :=
  match db.find? (fun e => e.1 = name) with
  | some e => e.2
  | none => []

/-- Write back the contents of a table, creating it if absent. -/
def setTable (db : DocDB) (name : String) (rows : List (List Cell)) : DocDB :=
  if db.any (fun e => e.1 = name) then
    db.map (fun e => if e.1 = name then (e.1, rows) else e)
  else db ++ [(name, rows)]

/-- Loop state of `load_docfile_into_db`: the database, the running
`total_inserted_row_count`, the last sheet's `inserted_row_count` (unset
before any configured sheet was processed), and the current `sql`
statement's target table (unset until some header row was reached; it
persists across sheets because `sql` is a function-level local). -/
structure DocLoadState where
  db : DocDB
  total : Nat
  lastCount : Option Nat
  sqlTable : Option String

/-- Process the worksheets of the workbook in order.  Sheets whose
lower-cased title is not in the configured sheet list are skipped.  For a
configured sheet the rows are scanned, the `INSERT` target becomes this
sheet's table if its header row was reached, and `executemany` then runs
against the current `sql` target — raising `UnboundLocalError` if no
header row has ever been reached. -/
def docSheetsLoop (cfg : DocConfig) (pfx : String) (reqDate fileName : Cell)
    (idxs : Option (List Nat)) : DocLoadState → List Sheet →
    Except PyError DocLoadState
  | st, [] => .ok st
  | st, sh :: rest =>
    if (cfg.fileSheets pfx).any (fun x => x = pyLowerStr sh.title) then
      let t := pyLowerStr sh.title
      let scanned := scanSheetFull (cfg.headerLen t) (cfg.startHeader t)
        (cfg.startData t) reqDate fileName sh.rows
      let sqlTable' := if scanned.2 then some ⟨normalize_name sh.title.data⟩ else st.sqlTable
      match sqlTable' with
      | none => .error .unboundLocal
      | some tbl =>
        let r := executemanyInsertOrIgnore idxs (getTable st.db tbl) scanned.1
        docSheetsLoop cfg pfx reqDate fileName idxs
          ⟨setTable st.db tbl r.1, st.total + r.2, some r.2, some tbl⟩ rest
    else docSheetsLoop cfg pfx reqDate fileName idxs st rest

/-- loaders.py `load_docfile_into_db`: load every configured sheet of the
workbook, then attach the label when `label and inserted_row_count > 0`
— note this reads the *last* sheet's count, and raises
`UnboundLocalError` when `label` is truthy but no sheet was configured.
Returns the database, `total_inserted_row_count`, and whether the label
was attached. -/
def load_docfile_into_db (db : DocDB) (wb : List Sheet) (cfg : DocConfig)
    (pfx : String) (reqDate fileName : Cell) (idxs : Option (List Nat))
    (label : Option String) : Except PyError (DocDB × Nat × Bool) :=
  match docSheetsLoop cfg pfx reqDate fileName idxs ⟨db, 0, none, none⟩ wb with
  | .error e => .error e
  | .ok st =>
    if labelTruthy label then
      match st.lastCount with
      | none => .error .unboundLocal
      | some n => .ok (st.db, st.total, decide (0 < n))
    else .ok (st.db, st.total, false)

/-- Amended behaviour of the sheet scan (for comparison with the code):
collect converted data-region rows that are truthy, stopping once three
empty rows have been seen in total — the counter is never reset by a
non-empty row. -/
def collectUntilThreeEmpties (empties : Nat) : List (List Cell) → List (List Cell)
  | [] => []
  | r :: rest =>
    if r.any truthy then r :: collectUntilThreeEmpties empties rest
    else if 3 ≤ empties + 1 then []
    else collectUntilThreeEmpties (empties + 1) rest

/-- Claimed behaviour of the sheet scan (from the specification text):
collect truthy converted data rows, stopping only at three *consecutive*
empty rows — the counter resets at every non-empty row. -/
def collectConsecutiveSpec (empties : Nat) : List (List Cell) → List (List Cell)
  | [] => []
  | r :: rest =>
    if r.any truthy then r :: collectConsecutiveSpec 0 rest
    else if 3 ≤ empties + 1 then []
    else collectConsecutiveSpec (empties + 1) rest

/-- Converted data region of a sheet: rows from the 1-based data start row
on, truncated to the configured width and converted cell-wise. -/
def dataRegion (cfgLen startData : Nat) (rows : List (List Cell)) : List (List Cell) :=
  (rows.drop (startData - 1)).map (fun r => (r.take cfgLen).map convertCell)

/-! ## Multi-file templated-document load (main.py: load_doc_data) -/

/-- First configured prefix that case-insensitively matches the file name,
model of the inner `for prefix in config["doc"]["file_prefixes"]` loop. -/
def findFilePfx (pfxs : List String) (fileName : String) : Option String :=
  pfxs.find? (fun p => p.data.isPrefixOf (pyLowerStr fileName).data)

/-- main.py `load_doc_data`, reduced to the prefix-selection control flow:
for each file the matching prefix is looked up, but when no prefix matches
the loop variable keeps its value from the *previous* file (or is unbound
for the first file).  The result pairs every file with the prefix it is
ingested under, or fails with `UnboundLocalError`. -/
def load_doc_data (pfxs : List String) : Option String → List String →
    Except PyError (List (String × String))
  | _, [] => .ok []
  | cur, f :: rest =>
    match (findFilePfx pfxs f).orElse (fun _ => cur) with
    | none => .error .unboundLocal
    | some p =>
      match load_doc_data pfxs (some p) rest with
      | .ok tail => .ok ((f, p) :: tail)
      | .error e => .error e

/-! ## Snapshot listing (db.py: db_get_pim_datasets, db_get_hybris_datasets,
db_get_doc_datasets, db_table_exists) -/

/-- A stored row as used by the listing queries: snapshot timestamp, the
counted business column (NULLable), and the provenance file name column
(NULLable; present only in templated-document tables).  Label tables reuse
the same shape with the label in the second component. -/
abbrev TableRows := List (Nat × Option String × Option String)

/-- The whole database as seen by the listing layer. -/
abbrev ListingDB := List (String × TableRows)

/-- Look up a table; `none` models `sqlite3.OperationalError: no such
table` when the SQL references it. -/
def lookupTable (db : ListingDB) (name : String) : Option TableRows :=
  (db.find? (fun e => e.1 = name)).map (fun e => e.2)

/-- db.py `db_table_exists`: does the table exist? -/
def db_table_exists (db : ListingDB) (name : String) : Bool :=
  (lookupTable db name).isSome

/-- Insert into a sorted list of naturals (ascending). -/
def insertSorted (x : Nat) : List Nat → List Nat
  | [] => [x]
  | y :: t => if x ≤ y then x :: y :: t else y :: insertSorted x t

/-- The distinct snapshot timestamps of a table, ordered ascending or
descending (`GROUP BY export_date ORDER BY export_date`). -/
def sortedDates (rows : TableRows) (descending : Bool) : List Nat :=
  let ds := ((rows.map (fun r => r.1)).dedup).foldr insertSorted []
  if descending then ds.reverse else ds

/-- `count(column)` for one group: non-NULL values only. -/
def countNonNull (rows : TableRows) (d : Nat) : Nat :=
  (rows.filter (fun r => r.1 = d)).countP (fun r => r.2.1.isSome)

/-- The label joined onto one snapshot group (`LEFT JOIN`: `none` both
when there is no label row and when its label column is NULL). -/
def labelFor (labels : TableRows) (d : Nat) : Option String :=
  match labels.find? (fun r => r.1 = d) with
  | some r => r.2.1
  | none => none

/-- The grouped/joined listing query shared by the PIM and Hybris paths:
one result row per distinct snapshot timestamp with its row count and
label. -/
def datasetRows (rows labels : TableRows) (descending : Bool) :
    List (Nat × Nat × Option String) :=
  (sortedDates rows descending).map (fun d => (d, countNonNull rows d, labelFor labels d))

/-- db.py `db_get_pim_datasets`: queries `item_availability` joined with
`labels_pim` directly — with no existence check, so a missing table is an
`OperationalError`. -/
def db_get_pim_datasets (db : ListingDB) (descending : Bool) :
    Except PyError (List (Nat × Nat × Option String)) :=
  match lookupTable db "item_availability" with
  | none => .error (.noSuchTable "item_availability")
  | some rows =>
    match lookupTable db "labels_pim" with
    | none => .error (.noSuchTable "labels_pim")
    | some labels => .ok (datasetRows rows labels descending)

/-- db.py `db_get_hybris_datasets`: returns `[]` when `skus_status` does
not exist, otherwise queries it joined with `labels_hybris`. -/
def db_get_hybris_datasets (db : ListingDB) (descending : Bool) :
    Except PyError (List (Nat × Nat × Option String)) :=
  if !db_table_exists db "skus_status" then .ok []
  else
    match lookupTable db "skus_status" with
    | none => .error (.noSuchTable "skus_status")
    | some rows =>
      match lookupTable db "labels_hybris" with
      | none => .error (.noSuchTable "labels_hybris")
      | some labels => .ok (datasetRows rows labels descending)

/-- The four templated-document tables polled by `db_get_doc_datasets`
(table name; the counted column name is part of the query text only). -/
def docTableNames : List String :=
  ["doc_cert_data_template", "doc_sku_data_template",
   "sku_list_complete_translation", "pim_sku_load"]

/-- One row of the templated-document listing: snapshot timestamp, row
count, sheet (table) name, provenance file name, label. -/
structure DocListingRow where
  date : Nat
  cnt : Nat
  sheetName : String
  fileName : Option String
  label : Option String
  deriving DecidableEq, Repr

/-- The per-table doc listing query: group rows, count, report the sheet
(table) name and the group's provenance file name, join the label. -/
def docDatasetRows (tableName : String) (rows labels : TableRows)
    (descending : Bool) : List DocListingRow :=
  (sortedDates rows descending).map (fun d =>
    ⟨d, countNonNull rows d, tableName,
      (match rows.find? (fun r => r.1 = d) with
       | some r => r.2.2
       | none => none),
      labelFor labels d⟩)

/-- db.py `db_get_doc_datasets`: for each known doc table that exists, run
the grouped query (which also references `labels_doc`) and concatenate the
results; tables that do not exist are skipped. -/
def db_get_doc_datasets (db : ListingDB) (descending : Bool) :
    Except PyError (List DocListingRow) :=
  docTableNames.foldl
    (fun acc name =>
      match acc with
      | .error e => .error e
      | .ok sofar =>
        if db_table_exists db name then
          match lookupTable db name with
          | none => .error (.noSuchTable name)
          | some rows =>
            match lookupTable db "labels_doc" with
            | none => .error (.noSuchTable "labels_doc")
            | some labels => .ok (sofar ++ docDatasetRows name rows labels descending)
        else .ok sofar)
    (.ok [])

/-! ## Label store (db.py: db_add_label) -/

/-- A label table: rows of (snapshot timestamp, nullable label); the
timestamp column carries a UNIQUE constraint. -/
abbrev LabelTable := List (Nat × Option String)

/-- db.py `db_add_label`: `INSERT ... ON CONFLICT (date_column) DO UPDATE
SET label = ?` — insert a fresh row, or overwrite the label of the
conflicting row. -/
def db_add_label (tbl : LabelTable) (d : Nat) (label : Option String) : LabelTable :=
  if tbl.any (fun r => r.1 = d) then
    tbl.map (fun r => if r.1 = d then (r.1, label) else r)
  else tbl ++ [(d, label)]

/-! ## Concrete inputs used by the claim theorems -/

/-- A freshly initialised database: the label tables have been created
(`db_create_label_tables`), but no data file has ever been loaded, so no
data table exists. -/
def freshDB : ListingDB := [("labels_pim", []), ("labels_hybris", []), ("labels_doc", [])]

/-- A sheet whose data region is: empty row, data row, empty row, empty
row, data row — the three empty rows are not consecutive. -/
def mixedRows : List (List Cell) := [[.null], [.text "a"], [.null], [.null], [.text "b"]]

/-- Configuration for a two-sheet templated document: sheets `s1` and
`s2`, two configured fields each, header in row 1, data from row 2. -/
def twoSheetCfg : DocConfig := ⟨fun _ => ["s1", "s2"], fun _ => 2, fun _ => 1, fun _ => 2⟩

/-- A workbook whose first configured sheet has two data rows and whose
second configured sheet has only empty data rows. -/
def twoSheetWb : List Sheet :=
  [⟨"s1", [[.text "h1", .text "h2"], [.text "a", .text "x"], [.text "b", .text "y"]]⟩,
   ⟨"s2", [[.text "h1", .text "h2"], [.null, .null], [.null, .null], [.null, .null]]⟩]

/-- Configuration recognising only a sheet called `s1`. -/
def oneSheetCfg : DocConfig := ⟨fun _ => ["s1"], fun _ => 2, fun _ => 1, fun _ => 2⟩

/-- A workbook none of whose sheet titles is configured. -/
def unmatchedWb : List Sheet := [⟨"other", [[.text "h"]]⟩]

/-! ## Lemmas about normalize_name (for claims C7 and C9) -/

/-- No two adjacent underscores. -/
def RnoDD (a b : Char) : Prop := ¬(a = '_' ∧ b = '_')

theorem isKept_ne_us {c : Char} (h : isKept c = true) : c ≠ '_' := by
  intro he
  rw [he] at h
  exact absurd h (by decide)

theorem mem_subRunsAux :
    ∀ {b : Bool} {l : List Char}, ∀ c ∈ subRunsAux b l, isKept c = true ∨ c = '_' := by
  intro b l
  induction l generalizing b with
  | nil => simp [subRunsAux]
  | cons x t ih =>
    intro c hc
    by_cases hx : isKept x
    · rw [subRunsAux, if_pos hx] at hc
      rcases List.mem_cons.mp hc with rfl | hc
      · exact Or.inl hx
      · exact ih c hc
    · cases b with
      | true =>
        rw [subRunsAux, if_neg hx, if_pos rfl] at hc
        exact ih c hc
      | false =>
        rw [subRunsAux, if_neg hx, if_neg (by simp)] at hc
        rcases List.mem_cons.mp hc with rfl | hc
        · exact Or.inr rfl
        · exact ih c hc

theorem subRunsAux_true_head :
    ∀ l : List Char, (subRunsAux true l).head? ≠ some '_' := by
  intro l
  induction l with
  | nil => simp [subRunsAux]
  | cons x t ih =>
    by_cases hx : isKept x
    · rw [subRunsAux, if_pos hx]
      simp only [List.head?_cons, ne_eq, Option.some.injEq]
      exact isKept_ne_us hx
    · rw [subRunsAux, if_neg hx, if_pos rfl]
      exact ih

theorem chain'_subRunsAux :
    ∀ (b : Bool) (l : List Char), (subRunsAux b l).Chain' RnoDD := by
  intro b l
  induction l generalizing b with
  | nil => simp [subRunsAux]
  | cons x t ih =>
    by_cases hx : isKept x
    · rw [subRunsAux, if_pos hx]
      refine List.chain'_cons'.mpr ⟨?_, ih false⟩
      intro y _
      exact fun hc => isKept_ne_us hx hc.1
    · cases b with
      | true =>
        rw [subRunsAux, if_neg hx, if_pos rfl]
        exact ih true
      | false =>
        rw [subRunsAux, if_neg hx, if_neg (by simp)]
        refine List.chain'_cons'.mpr ⟨?_, ih true⟩
        intro y hy
        intro hc
        exact subRunsAux_true_head t (by rw [hy, hc.2])

theorem subRunsAux_fix :
    ∀ l : List Char, (∀ c ∈ l, isKept c = true ∨ c = '_') → l.Chain' RnoDD →
      subRunsAux false l = l ∧ (l.head? ≠ some '_' → subRunsAux true l = l) := by
  intro l
  induction l with
  | nil => simp [subRunsAux]
  | cons x t ih =>
    intro hall hch
    have hxk := hall x (List.mem_cons_self x t)
    have ht : ∀ c ∈ t, isKept c = true ∨ c = '_' :=
      fun c hc => hall c (List.mem_cons_of_mem x hc)
    have hhd := (List.chain'_cons'.mp hch).1
    have hch' := (List.chain'_cons'.mp hch).2
    obtain ⟨ih1, ih2⟩ := ih ht hch'
    rcases hxk with hk | rfl
    · constructor
      · rw [subRunsAux, if_pos hk, ih1]
      · intro _
        rw [subRunsAux, if_pos hk, ih1]
    · have hxnk : ¬ isKept '_' = true := by decide
      have h2 : t.head? ≠ some '_' := by
        cases t with
        | nil => simp
        | cons y u =>
          have hr := hhd y (by simp)
          simp only [List.head?_cons, ne_eq, Option.some.injEq]
          intro he
          exact hr ⟨rfl, he⟩
      constructor
      · rw [subRunsAux, if_neg hxnk, if_neg (by simp), ih2 h2]
      · intro hhead
        exact absurd rfl hhead

theorem stripUS_within (l : List Char) : stripUS l <:+: l := by
  have h1 : l.dropWhile (· = '_') <:+ l := List.dropWhile_suffix _
  have h2 : stripUS l <+: l.dropWhile (· = '_') := List.rdropWhile_prefix _ _
  obtain ⟨s, hs⟩ := h1
  obtain ⟨t, ht⟩ := h2
  exact ⟨s, t, by rw [List.append_assoc, ht, hs]⟩

theorem head?_dropWhile_ne {p : Char → Bool} {l : List Char} {c : Char}
    (h : (l.dropWhile p).head? = some c) : p c = false := by
  induction l with
  | nil => simp [List.dropWhile] at h
  | cons x t ih =>
    rw [List.dropWhile_cons] at h
    by_cases hx : p x
    · rw [if_pos hx] at h
      exact ih h
    · rw [if_neg hx] at h
      simp only [List.head?_cons, Option.some.injEq] at h
      subst h
      exact Bool.eq_false_iff.mpr hx

theorem stripUS_head (l : List Char) : (stripUS l).head? ≠ some '_' := by
  intro h
  obtain ⟨t, ht⟩ := List.rdropWhile_prefix (· = '_') (l.dropWhile (· = '_'))
  have hh : (l.dropWhile (· = '_')).head? = some '_' := by
    cases hs : stripUS l with
    | nil => rw [hs] at h; simp at h
    | cons y u =>
      rw [hs] at h
      simp only [List.head?_cons, Option.some.injEq] at h
      subst h
      rw [← ht]
      unfold stripUS at hs
      rw [hs]
      simp
  have := head?_dropWhile_ne hh
  simp at this

theorem stripUS_getLast (l : List Char) : (stripUS l).getLast? ≠ some '_' := by
  intro h
  have hne : stripUS l ≠ [] := by
    intro he
    rw [he] at h
    simp at h
  have hlast := List.rdropWhile_last_not (· = '_') (l.dropWhile (· = '_')) hne
  rw [List.getLast?_eq_getLast _ hne] at h
  simp only [Option.some.injEq] at h
  apply hlast
  simp only [decide_eq_true_eq]
  exact h

theorem stripUS_fix (l : List Char) (h1 : l.head? ≠ some '_')
    (h2 : l.getLast? ≠ some '_') : stripUS l = l := by
  unfold stripUS
  have hd : l.dropWhile (· = '_') = l := by
    cases l with
    | nil => simp
    | cons x t =>
      rw [List.dropWhile_cons, if_neg (by simpa using h1)]
  rw [hd]
  refine List.rdropWhile_eq_self_iff.mpr ?_
  intro hl
  rw [List.getLast?_eq_getLast l hl] at h2
  simpa using h2

theorem normalize_mem (l : List Char) :
    ∀ c ∈ normalize_name l, isKept c = true ∨ c = '_' := by
  intro c hc
  exact mem_subRunsAux c ((stripUS_within _).subset hc)

theorem normalize_chain (l : List Char) : (normalize_name l).Chain' RnoDD :=
  List.Chain'.infix (chain'_subRunsAux false _) (stripUS_within _)

theorem normalize_head (l : List Char) : (normalize_name l).head? ≠ some '_' :=
  stripUS_head _

theorem normalize_getLast (l : List Char) : (normalize_name l).getLast? ≠ some '_' :=
  stripUS_getLast _

theorem pyToLower_fix {c : Char} (h : isKept c = true ∨ c = '_') :
    pyToLower c = c := by
  rcases h with h | rfl
  · simp only [isKept, Bool.or_eq_true, Bool.and_eq_true, decide_eq_true_eq] at h
    unfold pyToLower Char.toLower
    rw [if_neg (by omega)]
  · decide

theorem map_pyToLower_fix {l : List Char} (h : ∀ c ∈ l, isKept c = true ∨ c = '_') :
    l.map pyToLower = l := by
  induction l with
  | nil => rfl
  | cons x t ih =>
    rw [List.map_cons, pyToLower_fix (h x (List.mem_cons_self x t)),
      ih (fun c hc => h c (List.mem_cons_of_mem x hc))]

theorem normalize_name_idem (l : List Char) :
    normalize_name (normalize_name l) = normalize_name l := by
  conv_lhs => rw [normalize_name]
  rw [map_pyToLower_fix (normalize_mem l)]
  rw [show subRuns (normalize_name l) = normalize_name l from
    (subRunsAux_fix _ (normalize_mem l) (normalize_chain l)).1]
  exact stripUS_fix _ (normalize_head l) (normalize_getLast l)

/-! ## Lemmas about splitUS (for claim C7) -/

theorem splitUS_ne_nil : ∀ l : List Char, splitUS l ≠ [] := by
  intro l
  cases l with
  | nil => simp [splitUS]
  | cons c t =>
    rw [splitUS]
    by_cases hc : c = '_'
    · simp [hc]
    · rw [if_neg hc]
      cases hsp : splitUS t with
      | nil => simp
      | cons h r => simp

theorem splitUS_cons_ne {c : Char} {t : List Char} (hc : ¬ c = '_') :
    ∃ h r, splitUS t = h :: r ∧ splitUS (c :: t) = (c :: h) :: r := by
  cases hsp : splitUS t with
  | nil => exact absurd hsp (splitUS_ne_nil t)
  | cons h r =>
    refine ⟨h, r, rfl, ?_⟩
    rw [splitUS, if_neg hc, hsp]

theorem splitUS_tail_ne_nil :
    ∀ l : List Char, l.Chain' RnoDD → l.getLast? ≠ some '_' →
      ∀ p ∈ (splitUS l).tail, p ≠ [] := by
  intro l
  induction l with
  | nil =>
    intro _ _ p hp
    simp [splitUS] at hp
  | cons c t ih =>
    intro hch hlast p hp
    by_cases hc : c = '_'
    · subst hc
      rw [splitUS, if_pos rfl] at hp
      simp only [List.tail_cons] at hp
      cases t with
      | nil => exact absurd (by simp) hlast
      | cons d t' =>
        have hd : ¬ d = '_' := by
          have hr := (List.chain'_cons'.mp hch).1 d (by simp)
          intro he
          exact hr ⟨rfl, he⟩
        obtain ⟨h, r, hsp, hsp2⟩ := splitUS_cons_ne hd (t := t')
        rw [hsp2] at hp
        rcases List.mem_cons.mp hp with rfl | hp
        · simp
        · have hch' := (List.chain'_cons'.mp hch).2
          have hlast' : (d :: t').getLast? ≠ some '_' := by
            rwa [List.getLast?_cons_cons] at hlast
          exact ih hch' hlast' p (by rw [hsp2]; simpa)
    · obtain ⟨h, r, hsp, hsp2⟩ := splitUS_cons_ne hc (t := t)
      rw [hsp2] at hp
      simp only [List.tail_cons] at hp
      cases t with
      | nil =>
        rw [splitUS] at hsp
        cases hsp
        simp at hp
      | cons d t' =>
        have hch' := (List.chain'_cons'.mp hch).2
        have hlast' : (d :: t').getLast? ≠ some '_' := by
          rwa [List.getLast?_cons_cons] at hlast
        exact ih hch' hlast' p (by rw [hsp]; simpa)

theorem normalize_second_part_ne_nil {l p0 p1 : List Char} {rest : List (List Char)}
    (hsp : splitUS (normalize_name l) = p0 :: p1 :: rest) : p1 ≠ [] := by
  apply splitUS_tail_ne_nil (normalize_name l) (normalize_chain _) (normalize_getLast _) p1
  rw [hsp]
  simp

theorem intercalate_pair (a b : List Char) :
    List.intercalate ['_'] [a, b] = a ++ '_' :: b := by
  simp [List.intercalate, List.intersperse]

/-! ## Lemmas about the insert-or-ignore engine (for claim C5) -/

theorem executemany_all_new {V : Type} [DecidableEq V] (ix : List Nat) :
    ∀ (data t : List (List V)),
      (∀ d ∈ data, ∀ r ∈ t, projectKey ix r ≠ projectKey ix d) →
      data.Pairwise (fun a b => projectKey ix a ≠ projectKey ix b) →
      executemanyInsertOrIgnore (some ix) t data = (t ++ data, data.length) := by
  intro data
  induction data with
  | nil =>
    intro t _ _
    simp [executemanyInsertOrIgnore]
  | cons d rest ih =>
    intro t hnew hpw
    have hc : hasConflict (some ix) t d = false := by
      simp only [hasConflict, List.any_eq_false, decide_eq_true_eq]
      exact fun r hr => hnew d (List.mem_cons_self d rest) r hr
    rw [executemanyInsertOrIgnore]
    simp only [insertOrIgnoreRow, hc, Bool.false_eq_true, if_false]
    have hnew' : ∀ e ∈ rest, ∀ r ∈ t ++ [d], projectKey ix r ≠ projectKey ix e := by
      intro e he r hr
      rcases List.mem_append.mp hr with hr | hr
      · exact hnew e (List.mem_cons_of_mem d he) r hr
      · rcases List.mem_singleton.mp hr with rfl
        exact (List.pairwise_cons.mp hpw).1 e he
    rw [ih (t ++ [d]) hnew' (List.pairwise_cons.mp hpw).2]
    simp [List.append_assoc]
    omega

theorem executemany_all_dup {V : Type} [DecidableEq V] (ix : List Nat) :
    ∀ (data t : List (List V)),
      (∀ d ∈ data, ∃ r ∈ t, projectKey ix r = projectKey ix d) →
      executemanyInsertOrIgnore (some ix) t data = (t, 0) := by
  intro data
  induction data with
  | nil =>
    intro t _
    simp [executemanyInsertOrIgnore]
  | cons d rest ih =>
    intro t hdup
    have hc : hasConflict (some ix) t d = true := by
      simp only [hasConflict, List.any_eq_true, decide_eq_true_eq]
      obtain ⟨r, hr, he⟩ := hdup d (List.mem_cons_self d rest)
      exact ⟨r, hr, he⟩
    rw [executemanyInsertOrIgnore]
    simp only [insertOrIgnoreRow, hc, if_true]
    rw [ih t (fun e he => hdup e (List.mem_cons_of_mem d he))]
    simp

/-! ## Refinement of the sheet scan (for claim C2) -/

theorem scanLoop_data (cfgLen startHeader startData : Nat) (reqDate fileName : Cell) :
    ∀ (rows : List (List Cell)) (i e : Nat) (b : Bool) (acc : List (List Cell)),
      e < 3 →
      (scanLoop cfgLen startHeader startData reqDate fileName i e b acc rows).1
        = acc.reverse ++
          (collectUntilThreeEmpties e ((rows.drop (startData - i)).map
            (fun r => (r.take cfgLen).map convertCell))).map (wrapDataRow reqDate fileName) := by
  intro rows
  induction rows with
  | nil =>
    intro i e b acc he
    simp [scanLoop, collectUntilThreeEmpties]
  | cons r rest ih =>
    intro i e b acc he
    rw [scanLoop]
    by_cases hi : startData ≤ i
    · have hdrop : startData - i = 0 := Nat.sub_eq_zero_of_le hi
      have hdrop' : startData - (i + 1) = 0 := Nat.sub_eq_zero_of_le (by omega)
      rw [hdrop, if_pos hi, List.drop_zero, List.map_cons]
      by_cases ht : ((r.take cfgLen).map convertCell).any truthy
      · rw [if_pos ht, if_neg (by omega), collectUntilThreeEmpties, if_pos ht]
        rw [ih (i + 1) e _ (wrapDataRow reqDate fileName ((r.take cfgLen).map convertCell) :: acc) he]
        rw [hdrop', List.drop_zero, List.map_cons, List.reverse_cons, List.append_assoc]
        rfl
      · rw [if_neg ht, collectUntilThreeEmpties, if_neg ht]
        by_cases he1 : 3 ≤ e + 1
        · rw [if_pos he1, if_pos he1]
          simp
        · rw [if_neg he1, if_neg he1]
          rw [ih (i + 1) (e + 1) _ acc (by omega), hdrop', List.drop_zero]
    · rw [if_neg hi, if_neg (by omega)]
      obtain ⟨k, hk⟩ : ∃ k, startData - i = k + 1 := ⟨startData - i - 1, by omega⟩
      have hk' : startData - (i + 1) = k := by omega
      rw [hk, List.drop_succ_cons, ih (i + 1) e _ acc he, hk']

/-! ## Lemmas about the doc loader loop (for claim C10) -/

theorem docSheetsLoop_skip_all (cfg : DocConfig) (pfx : String) (reqDate fileName : Cell)
    (idxs : Option (List Nat)) :
    ∀ (wb : List Sheet) (st : DocLoadState),
      (∀ sh ∈ wb, pyLowerStr sh.title ∉ cfg.fileSheets pfx) →
      docSheetsLoop cfg pfx reqDate fileName idxs st wb = .ok st := by
  intro wb
  induction wb with
  | nil =>
    intro st _
    rfl
  | cons sh rest ih =>
    intro st hno
    rw [docSheetsLoop]
    have hm : (cfg.fileSheets pfx).any (fun x => x = pyLowerStr sh.title) = false := by
      simp only [List.any_eq_false, decide_eq_true_eq]
      intro x hx he
      exact hno sh (List.mem_cons_self sh rest) (he ▸ hx)
    rw [hm]
    simp only [Bool.false_eq_true, if_false]
    exact ih st (fun s hs => hno s (List.mem_cons_of_mem sh hs))

/-! ## Lemma about the timestamp extraction (for claim C6) -/

theorem get_export_date_no_match {name : List Char}
    (h : ∀ i < name.length, underscoreMatch name i = false) :
    get_export_date_from_file name = .error (.valueError "Cannot parse date from filename") := by
  have hf : (List.range name.length).filter (underscoreMatch name) = [] :=
    List.filter_eq_nil_iff.mpr (fun i hi => by simp [h i (List.mem_range.mp hi)])
  rw [get_export_date_from_file, findTimestampCapture, hf]
  rfl

/-! ## Lemmas about the label upsert (for claim C8) -/

theorem upsert_key_fix (d : Nat) (l : Option String) (r : Nat × Option String) :
    (if r.1 = d then (r.1, l) else r).1 = r.1 := by
  by_cases hr : r.1 = d <;> simp [hr]

theorem db_add_label_pairwise {tbl : LabelTable} {d : Nat} {l : Option String}
    (h : tbl.Pairwise (fun a b => a.1 ≠ b.1)) :
    (db_add_label tbl d l).Pairwise (fun a b => a.1 ≠ b.1) := by
  rw [db_add_label]
  by_cases ha : tbl.any (fun r => decide (r.1 = d)) = true
  · rw [if_pos ha]
    rw [List.pairwise_map]
    refine h.imp ?_
    intro a b hab
    rw [upsert_key_fix d l a, upsert_key_fix d l b]
    exact hab
  · rw [if_neg ha]
    refine List.pairwise_append.mpr ⟨h, by simp, ?_⟩
    intro a hat b hbt
    rcases List.mem_singleton.mp hbt with rfl
    simp only [Bool.not_eq_true, List.any_eq_false, decide_eq_true_eq] at ha
    exact ha a hat

theorem db_add_label_filter {d : Nat} {l : Option String} :
    ∀ {tbl : LabelTable}, tbl.Pairwise (fun a b => a.1 ≠ b.1) →
      (db_add_label tbl d l).filter (fun r => decide (r.1 = d)) = [(d, l)] := by
  intro tbl
  induction tbl with
  | nil =>
    intro _
    simp [db_add_label]
  | cons a t ih =>
    intro h
    have hpt := (List.pairwise_cons.mp h).2
    by_cases had : a.1 = d
    · have ha : (a :: t).any (fun r => decide (r.1 = d)) = true := by simp [had]
      rw [db_add_label, if_pos ha, List.map_cons, if_pos had]
      have htne : ∀ r ∈ t, ¬ r.1 = d := by
        intro r hr he
        exact (List.pairwise_cons.mp h).1 r hr (had.trans he.symm)
      rw [List.filter_cons_of_pos (by simp [had])]
      have hrest : (t.map (fun r => if r.1 = d then (r.1, l) else r)).filter
          (fun r => decide (r.1 = d)) = [] := by
        rw [List.filter_eq_nil_iff]
        intro x hx
        obtain ⟨r, hr, rfl⟩ := List.mem_map.mp hx
        rw [if_neg (htne r hr)]
        simpa using htne r hr
      rw [hrest, had]
    · by_cases hta : t.any (fun r => decide (r.1 = d)) = true
      · have ha : (a :: t).any (fun r => decide (r.1 = d)) = true := by
          simp only [List.any_cons, hta, Bool.or_true]
        rw [db_add_label, if_pos ha, List.map_cons, if_neg had,
          List.filter_cons_of_neg (by simp [had])]
        have := ih hpt
        rwa [db_add_label, if_pos hta] at this
      · have hnot : ∀ r ∈ a :: t, ¬ r.1 = d := by
          intro r hr
          rcases List.mem_cons.mp hr with rfl | hr
          · exact had
          · intro he
            apply hta
            simp only [List.any_eq_true, decide_eq_true_eq]
            exact ⟨r, hr, he⟩
        have ha : ¬ (a :: t).any (fun r => decide (r.1 = d)) = true := by
          simp only [List.any_eq_true, decide_eq_true_eq]
          rintro ⟨r, hr, he⟩
          exact hnot r hr he
        rw [db_add_label, if_neg ha, List.filter_append]
        have h0 : (a :: t).filter (fun r => decide (r.1 = d)) = [] := by
          rw [List.filter_eq_nil_iff]
          intro x hx
          simpa using hnot x hx
        rw [h0]
        simp

theorem db_add_label_mem_key {tbl : LabelTable} {d : Nat} {l : Option String} :
    (db_add_label tbl d l).any (fun r => decide (r.1 = d)) = true := by
  rw [db_add_label]
  by_cases ha : tbl.any (fun r => decide (r.1 = d)) = true
  · rw [if_pos ha]
    simp only [List.any_eq_true, decide_eq_true_eq] at ha ⊢
    obtain ⟨r, hr, he⟩ := ha
    refine ⟨(r.1, l), List.mem_map.mpr ⟨r, hr, by rw [if_pos he]⟩, he⟩
  · rw [if_neg ha]
    simp

/-! ## Claim theorems -/

/-- C1: the claim says that for every source type, listing snapshots on a
database whose underlying data table was never created returns an empty
sequence rather than raising.  Evaluating the model shows the claim holds
for the Hybris and templated-document variants but fails for the PIM
variant, which queries `item_availability` without any existence check and
raises `no such table` on a fresh database — the code-level slip the claim
exposes. -/
theorem c1_list_snapshots_missing_table :
    db_get_pim_datasets freshDB false = .error (.noSuchTable "item_availability") ∧
    db_get_pim_datasets [] false = .error (.noSuchTable "item_availability") ∧
    db_get_hybris_datasets freshDB false = .ok [] ∧
    db_get_hybris_datasets [] false = .ok [] ∧
    db_get_doc_datasets freshDB false = .ok [] ∧
    db_get_doc_datasets [] false = .ok [] :=
  ⟨by decide, by decide, by decide, by decide, by decide, by decide⟩

/-- C2 (counterexample): on a sheet whose data region is empty, truthy,
empty, empty, truthy, the code collects only the first truthy row — the
empty-row counter is cumulative — while the claimed
three-*consecutive*-empty-rows rule would also collect the final truthy
row. -/
theorem c2_consecutive_counterexample :
    (scanSheetFull 1 0 1 (.date 7) (.text "f") mixedRows).1
        = [[.date 7, .text "a", .text "f"]] ∧
    (collectConsecutiveSpec 0 (dataRegion 1 1 mixedRows)).map (wrapDataRow (.date 7) (.text "f"))
        = [[.date 7, .text "a", .text "f"], [.date 7, .text "b", .text "f"]] := by
  decide

/-- C2 (amended): the sheet scan collects exactly the truthy converted
data-region rows encountered before three empty data rows have been seen
*in total* (the counter is never reset by a non-empty row), each wrapped
with the request date and file name. -/
theorem c2_amended_three_total_empties (cfgLen startHeader startData : Nat)
    (reqDate fileName : Cell) (rows : List (List Cell)) :
    (scanSheetFull cfgLen startHeader startData reqDate fileName rows).1
      = (collectUntilThreeEmpties 0 (dataRegion cfgLen startData rows)).map
          (wrapDataRow reqDate fileName) := by
  rw [scanSheetFull, scanLoop_data cfgLen startHeader startData reqDate fileName rows 1 0 false []
    (by omega)]
  rfl

/-- C3: the claim says a label is attached iff the label is non-empty and
at least one row of the file was newly inserted.  Evaluating
`load_docfile_into_db` on a workbook whose first configured sheet inserts
two rows and whose second configured sheet inserts none shows the file as
a whole inserted 2 rows and the label "L" is truthy, yet no label is
attached: the code tests the *last* sheet's `inserted_row_count`, not the
total. -/
theorem c3_doc_label_uses_last_sheet_count :
    (∃ db', load_docfile_into_db [] twoSheetWb twoSheetCfg "p" (.date 9) (.text "f.xlsx")
        none (some "L") = .ok (db', 2, false)) ∧
    labelTruthy (some "L") = true ∧ 0 < 2 :=
  ⟨⟨[("s1", [[.date 9, .text "a", .text "x", .text "f.xlsx"],
             [.date 9, .text "b", .text "y", .text "f.xlsx"]]), ("s2", [])],
    by decide⟩, by decide, by omega⟩

/-- C4: the claim says a templated-document file whose name matches no
configured prefix is skipped with a diagnostic while other files continue.
Evaluating the model of `load_doc_data` shows the loop variable instead
carries over: a non-matching second file is ingested under the first
file's prefix, and a non-matching first file raises an unbound-local
error. -/
theorem c4_doc_unmatched_file_not_skipped :
    load_doc_data ["doc_cert"] none ["doc_cert_a.xlsx", "zzz.xlsx"]
        = .ok [("doc_cert_a.xlsx", "doc_cert"), ("zzz.xlsx", "doc_cert")] ∧
    load_doc_data ["doc_cert"] none ["zzz.xlsx"] = .error .unboundLocal ∧
    findFilePfx ["doc_cert"] "zzz.xlsx" = none := by
  decide

/-- C5: loading a feed file into an empty table with a non-empty unique
key covering the file's natural key (the tagged data rows have pairwise
distinct key projections) inserts exactly the data rows and reports their
number; loading the same file again reports 0 inserted rows and leaves the
table unchanged. -/
theorem c5_load_twice_idempotent {V : Type} [DecidableEq V] (ix : List Nat)
    (export_date : V) (csvRows : List (List V)) (label1 label2 : Option String)
    (_hix : ix ≠ [])
    (hkeys : (csvRows.map (fun r => export_date :: r)).Pairwise
      (fun a b => projectKey ix a ≠ projectKey ix b)) :
    (load_pimfile_to_db [] (some ix) export_date csvRows label1).1
        = csvRows.map (fun r => export_date :: r) ∧
    (load_pimfile_to_db [] (some ix) export_date csvRows label1).2.1 = csvRows.length ∧
    (load_pimfile_to_db (csvRows.map (fun r => export_date :: r)) (some ix) export_date
        csvRows label2).1 = csvRows.map (fun r => export_date :: r) ∧
    (load_pimfile_to_db (csvRows.map (fun r => export_date :: r)) (some ix) export_date
        csvRows label2).2.1 = 0 := by
  have h1 := executemany_all_new ix (csvRows.map (fun r => export_date :: r)) []
    (by intro d _ r hr; simp at hr) hkeys
  have h2 := executemany_all_dup ix (csvRows.map (fun r => export_date :: r))
    (csvRows.map (fun r => export_date :: r)) (fun d hd => ⟨d, hd, rfl⟩)
  refine ⟨?_, ?_, ?_, ?_⟩ <;> rw [load_pimfile_to_db]
  · rw [h1]
    simp
  · rw [h1]
    simp
  · rw [h2]
  · rw [h2]

/-- C5 witness: the theorem applied to a concrete two-row file keyed on
the first two columns. -/
theorem c5_load_twice_idempotent_witness :
    (load_pimfile_to_db ([] : List (List String)) (some [0, 1]) "ed"
        [["a", "1"], ["b", "2"]] none).2.1 = 2 ∧
    (load_pimfile_to_db [["ed", "a", "1"], ["ed", "b", "2"]] (some [0, 1]) "ed"
        [["a", "1"], ["b", "2"]] (some "L")).2.1 = 0 := by
  have h := c5_load_twice_idempotent (V := String) [0, 1] "ed" [["a", "1"], ["b", "2"]]
    none (some "L") (by decide) (by decide)
  exact ⟨h.2.1, h.2.2.2⟩

/-- C6 (counterexample): the claim says extraction fails whenever the
name has no run of exactly 12 or exactly 14 digits preceded by an
underscore and followed by `.csv`.  The name `a_2024041109081159.csv` has
only a 16-digit run, yet the code succeeds: the regex `\d{12,14}` greedily
captures the first 14 digits of the run and parses them. -/
theorem c6_exact_run_counterexample :
    get_export_date_from_file "a_2024041109081159.csv".data
        = .ok ⟨2024, 4, 11, 9, 8, 11⟩ ∧
    hasSpecTimestampRun "a_2024041109081159.csv".data = false := by
  decide

/-- C6 (amended): the extraction uses the last underscore followed by at
least 12 digits with `.csv` occurring later, capturing greedily up to 14
of those digits: a 12-digit capture parses as YYMMDDHHMMSS and a 14-digit
capture as YYYYMMDDHHMMSS (so the two example names denote the same
calendar instant), a 13-digit capture fails, a run of 15 or more digits
has its first 14 parsed, and when no underscore qualifies the call fails
with a ValueError. -/
theorem c6_amended_timestamp_extraction :
    get_export_date_from_file "x_240411090811_v10.csv".data
        = .ok ⟨2024, 4, 11, 9, 8, 11⟩ ∧
    get_export_date_from_file "x_20240411090811_v10.csv".data
        = .ok ⟨2024, 4, 11, 9, 8, 11⟩ ∧
    get_export_date_from_file "x_2404110908115.csv".data
        = .error (.valueError "Cannot parse date from filename") ∧
    get_export_date_from_file "a_2024041109081159.csv".data
        = .ok ⟨2024, 4, 11, 9, 8, 11⟩ ∧
    (∀ name : List Char, (∀ i < name.length, underscoreMatch name i = false) →
      get_export_date_from_file name
        = .error (.valueError "Cannot parse date from filename")) :=
  ⟨by decide, by decide, by decide, by decide, fun _ h => get_export_date_no_match h⟩

/-- C6 witness: the no-qualifying-underscore clause of the amended
theorem applied to a concrete name. -/
theorem c6_amended_timestamp_extraction_witness :
    get_export_date_from_file "abc.csv".data
        = .error (.valueError "Cannot parse date from filename") :=
  c6_amended_timestamp_extraction.2.2.2.2 "abc.csv".data (by decide)

/-- C7: category extraction splits the normalized stem on underscores;
fewer than two segments is an invalid-file-name error; if the second
segment starts with a digit the category is segment 0 alone, otherwise
segments 0 and 1 joined by an underscore; and the two example filenames
map to "item_pricing" and "skus_status". -/
theorem c7_file_prefix_spec :
    (∀ (name p0 p1 : List Char) (rest : List (List Char)),
        splitUS (normalize_name (pathStem name)) = p0 :: p1 :: rest →
          ((∃ c, p1.head? = some c ∧ c.isDigit = true) → file_prefix name = .ok p0) ∧
          ((∀ c, p1.head? = some c → c.isDigit = false) →
              file_prefix name = .ok (p0 ++ '_' :: p1))) ∧
    (∀ name : List Char, (splitUS (normalize_name (pathStem name))).length < 2 →
        file_prefix name
          = .error (.valueError "File name should contain at least one underscore")) ∧
    file_prefix "item_pricing_Static item list (2 items)_20240411090811_v10.csv".data
        = .ok "item_pricing".data ∧
    file_prefix "skus_status_11_04.xlsx".data = .ok "skus_status".data := by
  refine ⟨?_, ?_, by decide, by decide⟩
  · intro name p0 p1 rest hsp
    have hne : p1 ≠ [] := normalize_second_part_ne_nil hsp
    obtain ⟨c0, cs, rfl⟩ : ∃ c0 cs, p1 = c0 :: cs := by
      cases p1 with
      | nil => exact absurd rfl hne
      | cons c0 cs => exact ⟨c0, cs, rfl⟩
    constructor
    · rintro ⟨c, hc, hd⟩
      simp only [List.head?_cons, Option.some.injEq] at hc
      subst hc
      rw [ file_prefix, hsp]
      simp only [hd, if_true]
    · intro hnd
      have hd0 : c0.isDigit = false := hnd c0 rfl
      rw [ file_prefix, hsp]
      simp only [hd0, Bool.false_eq_true, if_false, intercalate_pair]
  · intro name hlen
    cases hsp : splitUS (normalize_name (pathStem name)) with
    | nil => rw [ file_prefix, hsp]
    | cons a t =>
      cases t with
      | nil => rw [ file_prefix, hsp]
      | cons b u =>
        rw [hsp] at hlen
        exact absurd hlen (by simp)

/-- C7 witness: the join clause of the theorem applied to the Hybris
status workbook file name. -/
theorem c7_file_prefix_spec_witness :
    file_prefix "skus_status_11_04.xlsx".data
      = .ok ("skus".data ++ '_' :: "status".data) :=
  (c7_file_prefix_spec.1 "skus_status_11_04.xlsx".data "skus".data "status".data
    ["11".data, "04".data] (by decide)).2 (by decide)

/-- C8: on a label table whose snapshot-key column is unique, two
successive upserts with the same key first leave exactly one row carrying
the first label, then exactly one row carrying the second label: the
first call inserts, the second overwrites. -/
theorem c8_label_upsert_twice (tbl : LabelTable) (d : Nat) (l1 l2 : String)
    (hU : tbl.Pairwise (fun a b => a.1 ≠ b.1)) (_hne : l1 ≠ l2) :
    (db_add_label tbl d (some l1)).filter (fun r => decide (r.1 = d)) = [(d, some l1)] ∧
    (db_add_label (db_add_label tbl d (some l1)) d (some l2)).filter
        (fun r => decide (r.1 = d)) = [(d, some l2)] :=
  ⟨db_add_label_filter hU, db_add_label_filter (db_add_label_pairwise hU)⟩

/-- C8 witness: the theorem applied to a concrete table holding one other
snapshot. -/
theorem c8_label_upsert_twice_witness :
    (db_add_label (db_add_label [(5, some "x")] 7 (some "a")) 7 (some "b")).filter
        (fun r => decide (r.1 = 7)) = [(7, some "b")] :=
  (c8_label_upsert_twice [(5, some "x")] 7 "a" "b" (by decide) (by decide)).2

/-- C9: `normalize_name` is idempotent on every string, and maps the
example file name "Skus status - 11.04.xlsx" to
"skus_status_11_04_xlsx". -/
theorem c9_normalize_idempotent :
    (∀ s : List Char, normalize_name (normalize_name s) = normalize_name s) ∧
    normalize_name "Skus status - 11.04.xlsx".data = "skus_status_11_04_xlsx".data :=
  ⟨normalize_name_idem, by decide⟩

/-- C10 (counterexample): the claim says the doc loader raises an
unbound-local error whenever no worksheet matches the configured sheet
list.  With the default `label=None` the label check short-circuits
before reading `inserted_row_count`, and the call returns 0 without
error. -/
theorem c10_no_label_returns_zero :
    load_docfile_into_db [] unmatchedWb oneSheetCfg "p" (.date 9) (.text "f") none none
      = .ok ([], 0, false) := by
  decide

/-- C10 (amended): when no worksheet title (lower-cased) appears in the
configured sheet list, the doc loader raises an unbound-local error
exactly when the label argument is truthy (the label check then reads the
never-assigned `inserted_row_count`); with a falsy label it returns 0 and
attaches nothing. -/
theorem c10_amended_unbound_local (db : DocDB) (wb : List Sheet) (cfg : DocConfig)
    (pfx : String) (reqDate fileName : Cell) (idxs : Option (List Nat))
    (label : Option String)
    (hno : ∀ sh ∈ wb, pyLowerStr sh.title ∉ cfg.fileSheets pfx) :
    (labelTruthy label = true →
      load_docfile_into_db db wb cfg pfx reqDate fileName idxs label
        = .error .unboundLocal) ∧
    (labelTruthy label = false →
      load_docfile_into_db db wb cfg pfx reqDate fileName idxs label
        = .ok (db, 0, false)) := by
  have hloop := docSheetsLoop_skip_all cfg pfx reqDate fileName idxs wb ⟨db, 0, none, none⟩ hno
  constructor
  · intro ht
    rw [load_docfile_into_db, hloop]
    simp only [ht, if_true]
  · intro hf
    rw [load_docfile_into_db, hloop]
    simp only [hf, Bool.false_eq_true, if_false]

/-- C10 witness: the amended theorem applied to a workbook with no
configured sheet and a truthy label. -/
theorem c10_amended_unbound_local_witness :
    load_docfile_into_db [] unmatchedWb oneSheetCfg "p" (.date 9) (.text "f") none (some "L")
      = .error .unboundLocal :=
  (c10_amended_unbound_local [] unmatchedWb oneSheetCfg "p" (.date 9) (.text "f") none
    (some "L") (by decide)).1 (by decide)

end PimItemAnalysis
